import Mathlib

/-!
Verification of the NAME MIPS assembler and emulator.

Shallow embedding of the Rust sources:
* namespace `Nma` — `name-as/src/nma.rs`, the syntax-tree-driven assembler
  (field codec, register naming, instruction catalog, two-pass pipeline);
* namespace `Tok` — `src/nma.rs`, the raw-token-stream assembler (only its
  generic `mask`, which the claims reference);
* namespace `Emu` — `src/mips.rs`, the execution engine (decode, dispatch,
  segmented memory model).

Machine integers are modelled as `Nat` with explicit `% 2^w` where the Rust
code relies on wrapping; fallible Rust code returns `Except`/`Option`; a Rust
panic is modelled by a dedicated outcome (`Option.none` or a `panic`
constructor), distinct from the `Result`-carried errors.
-/

/-- Value of a decimal digit character, `Char.to_digit(10)` in Rust:
`some (c - '0')` for `'0'..'9'`, otherwise `none`. -/
def charDigit (c : Char) : Option Nat :=
  if '0' ≤ c ∧ c ≤ '9' then some (c.toNat - 48) else none

/-- Value of a base-`radix` digit character (Rust `char::to_digit(radix)`
for radix ≤ 16): decimal digits, then `a`-`f` / `A`-`F`. -/
def hexDigit (c : Char) : Option Nat :=
  if '0' ≤ c ∧ c ≤ '9' then some (c.toNat - 48)
  else if 'a' ≤ c ∧ c ≤ 'f' then some (c.toNat - 97 + 10)
  else if 'A' ≤ c ∧ c ≤ 'F' then some (c.toNat - 65 + 10)
  else none

/-- One step of checked digit accumulation used by `parseRadix`. -/
def parseStep (radix bound : Nat) (acc : Option Nat) (c : Char) : Option Nat :=
  match acc, hexDigit c with
  | some a, some d =>
      if d < radix ∧ a * radix + d < bound then some (a * radix + d) else none
  | _, _ => none

/-- Rust `uN::from_str_radix(s, radix)` on an ASCII string: an optional `+`
sign, then a non-empty run of digits of the radix, with checked
(non-overflowing) accumulation bounded by `bound = 2^N`. -/
def parseRadix (radix bound : Nat) (s : List Char) : Option Nat :=
  let ds := match s with
    | '+' :: r => r
    | l => l
  if ds.isEmpty then none
  else ds.foldl (parseStep radix bound) (some 0)

/-- Rust `str::parse::<u8>()`: decimal, optional `+` sign, value < 256. -/
def parse_u8 (s : String) : Option Nat :=
  parseRadix 10 256 s.data

namespace Nma

/-- `mask_u8` from `name-as/src/nma.rs`: keep `n` if it fits in `x` bits,
otherwise report a masking error.  `n` ranges over u8 values (`n < 2^8`) and
every call site uses `x ∈ {5, 6}`. -/
def mask_u8 (n x : Nat) : Except String Nat :=
  let out := n &&& ((1 <<< x) - 1)
  if out ≠ n then .error "Masking error" else .ok out

/-- `mask_u32` from `name-as/src/nma.rs`: same check on u32 values
(`n < 2^32`); the only call site uses `x = 28`. -/
def mask_u32 (n x : Nat) : Except String Nat :=
  let out := n &&& ((1 <<< x) - 1)
  if out ≠ n then .error "Masking error" else .ok out

/-- `base_parse` from `name-as/src/nma.rs`: parse a numeric literal as
hexadecimal (`0x`), binary (`0b`), octal (leading `0`), or decimal, into a
u32. -/
def base_parse (input : String) : Except String Nat :=
  match input.data with
  | '0' :: 'x' :: rest =>
      match parseRadix 16 (2 ^ 32) rest with
      | some v => .ok v
      | none => .error "Failed to parse as hexadecimal"
  | '0' :: 'b' :: rest =>
      match parseRadix 2 (2 ^ 32) rest with
      | some v => .ok v
      | none => .error "Failed to parse as binary"
  | '0' :: c :: rest =>
      match parseRadix 8 (2 ^ 32) (c :: rest) with
      | some v => .ok v
      | none => .error "Failed to parse as octal"
  | l =>
      match parseRadix 10 (2 ^ 32) l with
      | some v => .ok v
      | none => .error "Failed to parse as decimal"

/-- `reg_number` from `name-as/src/nma.rs`: a register token must be exactly
three characters, its third character a decimal digit; that digit is the
family index.  (Lengths are character counts; all register tokens are
ASCII, where Rust's byte length agrees.) -/
def reg_number (mnemonic : String) : Except String Nat :=
  if mnemonic.data.length ≠ 3 then .error "Mnemonic out of bounds"
  else
    match mnemonic.data.get? 2 with
    | some c =>
        match charDigit c with
        | some digit =>
            if digit ≤ 31 then .ok digit else .error "Expected u8"
        | none => .error "Invalid register index"
    | none => .error "Malformed mnemonic"

/-- `assemble_reg` from `name-as/src/nma.rs`: resolve a register token to an
index.  Named aliases are matched on everything after the first character;
otherwise the third character is the family digit and the second character
selects the family base, with a final `≤ 31` range check. -/
def assemble_reg (mnemonic : String) : Except String Nat :=
  let rest : String := ⟨mnemonic.data.drop 1⟩
  if rest = "zero" then .ok 0
  else if rest = "at" then .ok 1
  else if rest = "gp" then .ok 28
  else if rest = "sp" then .ok 29
  else if rest = "fp" then .ok 30
  else if rest = "ra" then .ok 31
  else
    match reg_number mnemonic with
    | .error e => .error e
    | .ok n =>
        let reg : Nat :=
          match mnemonic.data.get? 1 with
          | some 'v' => n + 2
          | some 'a' => n + 4
          | some 't' => if n ≤ 7 then n + 8 else n + 16
          | some 's' => n + 16
          | _ => (parse_u8 mnemonic).getD 99
        if reg ≤ 31 then .ok reg else .error "Register out of bounds"

/-- `TEXT_ADDRESS_BASE` from `name-as/src/nma.rs`. -/
def TEXT_ADDRESS_BASE : Nat := 0x400000

/-- `MIPS_INSTR_BYTE_WIDTH` from `name-as/src/nma.rs`. -/
def MIPS_INSTR_BYTE_WIDTH : Nat := 4

/-- `RForm` from `name-as/src/nma.rs`. -/
inductive RForm where
  | RdRsRt
  | RdRtShamt
deriving DecidableEq

/-- The R-type instruction descriptor `R` from `name-as/src/nma.rs`. -/
structure R where
  shamt : Nat
  funct : Nat
  form : RForm

/-- `IForm` from `name-as/src/nma.rs`. -/
inductive IForm where
  | RtImm
  | RtImmRs
  | RtRsImm
  | RsRtLabel
deriving DecidableEq

/-- The I-type instruction descriptor `I` from `name-as/src/nma.rs`. -/
structure I where
  opcode : Nat
  form : IForm

/-- The J-type instruction descriptor `J` from `name-as/src/nma.rs`. -/
structure J where
  opcode : Nat

/-- `r_operation` from `name-as/src/nma.rs`: the R-type catalog. -/
def r_operation (mnemonic : String) : Except String R :=
  if mnemonic = "add" then .ok ⟨0, 0x20, .RdRsRt⟩
  else if mnemonic = "sub" then .ok ⟨0, 0x22, .RdRsRt⟩
  else if mnemonic = "sll" then .ok ⟨0, 0x00, .RdRtShamt⟩
  else if mnemonic = "srl" then .ok ⟨0, 0x02, .RdRtShamt⟩
  else if mnemonic = "xor" then .ok ⟨0, 0x26, .RdRsRt⟩
  else .error "Failed to match R-instr mnemonic"

/-- `i_operation` from `name-as/src/nma.rs`: the I-type catalog. -/
def i_operation (mnemonic : String) : Except String I :=
  if mnemonic = "ori" then .ok ⟨0xd, .RtRsImm⟩
  else if mnemonic = "lb" then .ok ⟨0x20, .RtImmRs⟩
  else if mnemonic = "lbu" then .ok ⟨0x24, .RtImmRs⟩
  else if mnemonic = "lh" then .ok ⟨0x21, .RtImmRs⟩
  else if mnemonic = "lhu" then .ok ⟨0x25, .RtImmRs⟩
  else if mnemonic = "lw" then .ok ⟨0x23, .RtImmRs⟩
  else if mnemonic = "ll" then .ok ⟨0x30, .RtImmRs⟩
  else if mnemonic = "lui" then .ok ⟨0xf, .RtImm⟩
  else if mnemonic = "sb" then .ok ⟨0x28, .RtImmRs⟩
  else if mnemonic = "sh" then .ok ⟨0x29, .RtImmRs⟩
  else if mnemonic = "sw" then .ok ⟨0x2b, .RtImmRs⟩
  else if mnemonic = "sc" then .ok ⟨0x38, .RtImmRs⟩
  else if mnemonic = "beq" then .ok ⟨0x4, .RsRtLabel⟩
  else if mnemonic = "bne" then .ok ⟨0x5, .RsRtLabel⟩
  else .error "Failed to match I-instr mnemonic"

/-- `j_operation` from `name-as/src/nma.rs`: the J-type catalog. -/
def j_operation (mnemonic : String) : Except String J :=
  if mnemonic = "j" then .ok ⟨0x2⟩
  else if mnemonic = "jal" then .ok ⟨0x3⟩
  else .error "Failed to match J-instr mnemonic"

/-- `enforce_length` from `name-as/src/nma.rs`. -/
def enforce_length (arr : List String) (len : Nat) : Except String Nat :=
  if arr.length ≠ len then .error "Failed length enforcement" else .ok 0

/-- The label table: Rust `HashMap<&str, u32>` modelled as an association
list where insertion prepends, so lookup finds the most recent binding
(`HashMap::insert` overwrites). -/
def lookupLabel (labels : List (String × Nat)) (l : String) : Option Nat :=
  match labels with
  | [] => none
  | (k, v) :: rest => if k = l then some v else lookupLabel rest l

/-- Wrapping u32 subtraction (`a - b` in release-mode Rust), for
`a, b < 2^32`. -/
def u32_sub (a b : Nat) : Nat :=
  (a + 2 ^ 32 - b) % 2 ^ 32

/-- `assemble_r` from `name-as/src/nma.rs`: resolve the operands of an
R-type statement per its form, mask each field, and pack
`[opcode:6][rs:5][rt:5][rd:5][shamt:5][funct:6]` with opcode 0.
The Rust `rt &= mask_u8(rt, 5)?` pattern (bind, then and) is kept as-is. -/
def assemble_r (r_struct : R) (r_args : List String) : Except String Nat := do
  let (rd, rs, rt, shamt) ←
    match r_struct.form with
    | .RdRsRt => do
        let _ ← enforce_length r_args 3
        let rd ← assemble_reg (r_args.getD 0 "")
        let rs ← assemble_reg (r_args.getD 1 "")
        let rt ← assemble_reg (r_args.getD 2 "")
        pure (rd, rs, rt, r_struct.shamt)
    | .RdRtShamt => do
        let _ ← enforce_length r_args 3
        let rd ← assemble_reg (r_args.getD 0 "")
        let rt ← assemble_reg (r_args.getD 1 "")
        let shamt ←
          match base_parse (r_args.getD 2 "") with
          | .ok v => pure (v % 2 ^ 8)
          | .error _ => .error "Failed to parse shamt"
        pure (rd, 0, rt, shamt)
  let funct := r_struct.funct
  let rs ← mask_u8 rs 5
  let mrt ← mask_u8 rt 5
  let rt := rt &&& mrt
  let mrd ← mask_u8 rd 5
  let rd := rd &&& mrd
  let mshamt ← mask_u8 shamt 5
  let shamt := shamt &&& mshamt
  let mfunct ← mask_u8 funct 6
  let funct := funct &&& mfunct
  let result := 0
  let result := (result <<< 6) ||| rs
  let result := (result <<< 5) ||| rt
  let result := (result <<< 5) ||| rd
  let result := (result <<< 5) ||| shamt
  let result := (result <<< 6) ||| funct
  pure result

/-- `assemble_i` from `name-as/src/nma.rs`: resolve the operands of an
I-type statement per its form (branch immediates are
`label_address - instr_address` in wrapping u32 arithmetic, truncated to
u16, with no division by the instruction width), mask the fields, and pack
`[opcode:6][rs:5][rt:5][imm:16]`. -/
def assemble_i (i_struct : I) (i_args : List String)
    (labels : List (String × Nat)) (instr_address : Nat) :
    Except String Nat := do
  let (rs, rt, imm) ←
    match i_struct.form with
    | .RtImm => do
        let _ ← enforce_length i_args 2
        let rt ← assemble_reg (i_args.getD 0 "")
        let imm ←
          match base_parse (i_args.getD 1 "") with
          | .ok v => pure (v % 2 ^ 16)
          | .error _ => .error "Failed to parse imm"
        pure (0, rt, imm)
    | .RtImmRs => do
        let i_args_catch :=
          if i_args.length = 2 then i_args.take 1 ++ ["0"] ++ i_args.drop 1
          else i_args
        let _ ← enforce_length i_args_catch 3
        let rt ← assemble_reg (i_args_catch.getD 0 "")
        let imm ←
          match base_parse (i_args_catch.getD 1 "") with
          | .ok v => pure (v % 2 ^ 16)
          | .error _ => .error "Failed to parse imm"
        let rs ← assemble_reg (i_args_catch.getD 2 "")
        pure (rs, rt, imm)
    | .RsRtLabel => do
        let _ ← enforce_length i_args 3
        let rs ← assemble_reg (i_args.getD 0 "")
        let rt ← assemble_reg (i_args.getD 1 "")
        match lookupLabel labels (i_args.getD 2 "") with
        | some v => pure (rs, rt, u32_sub v instr_address % 2 ^ 16)
        | none => .error "Undeclared label"
    | .RtRsImm => do
        let _ ← enforce_length i_args 3
        let rt ← assemble_reg (i_args.getD 0 "")
        let rs ← assemble_reg (i_args.getD 1 "")
        let imm ←
          match base_parse (i_args.getD 2 "") with
          | .ok v => pure (v % 2 ^ 16)
          | .error _ => .error "Failed to parse imm"
        pure (rs, rt, imm)
  let opcode := i_struct.opcode
  let rs ← mask_u8 rs 5
  let rt ← mask_u8 rt 5
  let opcode ← mask_u8 opcode 6
  let result := opcode
  let result := (result <<< 5) ||| rs
  let result := (result <<< 5) ||| rt
  let result := (result <<< 16) ||| imm
  pure result

/-- `assemble_j` from `name-as/src/nma.rs`.  The label lookup is Rust
`labels[j_args[0]]`, which panics when the key is absent; the panic is
modelled by `Option.none` (distinct from the `Result`-carried errors). -/
def assemble_j (j_struct : J) (j_args : List String)
    (labels : List (String × Nat)) : Option (Except String Nat) :=
  match enforce_length j_args 1 with
  | .error e => some (.error e)
  | .ok _ =>
      match lookupLabel labels (j_args.getD 0 "") with
      | none => none
      | some jump_address =>
          match mask_u32 jump_address 28 with
          | .error e => some (.error e)
          | .ok masked =>
              if jump_address ≠ masked then
                some (.error "Tried to assemble illegal jump address")
              else
                let masked_jump_address := masked >>> 2
                match mask_u8 j_struct.opcode 6 with
                | .error e => some (.error e)
                | .ok opcode =>
                    some (.ok ((opcode <<< 26) ||| masked_jump_address))

/-- A flattened statement of the syntax tree consumed by `assemble` in
`name-as/src/nma.rs` (`MipsCST` with nested sequences already flattened;
the assembler's two loops treat a nested `Sequence` as unreachable). -/
inductive Stmt where
  | label (name : String)
  | directive (mnemonic : String) (args : List String)
  | instruction (mnemonic : String) (args : List String)
deriving DecidableEq

/-- Pass 1 of `assemble` in `name-as/src/nma.rs` (the label-assignment
loop): fold over the statements carrying the label table and the address
counter.  A label records `label → current address` without advancing; a
directive does not advance; an instruction advances by
`MIPS_INSTR_BYTE_WIDTH`. -/
def pass1 (prog : List Stmt) (st : List (String × Nat) × Nat) :
    List (String × Nat) × Nat :=
  match prog with
  | [] => st
  | .label l :: rest => pass1 rest ((l, st.2) :: st.1, st.2)
  | .directive _ _ :: rest => pass1 rest st
  | .instruction _ _ :: rest =>
      pass1 rest (st.1, st.2 + MIPS_INSTR_BYTE_WIDTH)

/-- Pass 2 of `assemble` in `name-as/src/nma.rs` (the encoding loop),
returning the sequence of emitted words.  Mnemonics are tried against the
R, then I, then J catalog.  In this loop the counter is advanced after
instructions and after (supported) directives, but not after labels.
`Option.none` models a Rust panic escaping the loop (from `assemble_j`). -/
def pass2 (labels : List (String × Nat)) (prog : List Stmt) (addr : Nat) :
    Option (Except String (List Nat)) :=
  match prog with
  | [] => some (.ok [])
  | .label _ :: rest => pass2 labels rest addr
  | .directive mnemonic _ :: rest =>
      if mnemonic = "text" ∨ mnemonic = "data" ∨ mnemonic = "eqv" then
        pass2 labels rest (addr + MIPS_INSTR_BYTE_WIDTH)
      else
        some (.error ("Directive ." ++ mnemonic ++ " not yet supported"))
  | .instruction mnemonic args :: rest =>
      let word : Option (Except String Nat) :=
        match r_operation mnemonic with
        | .ok instr_info => some (assemble_r instr_info args)
        | .error _ =>
            match i_operation mnemonic with
            | .ok instr_info => some (assemble_i instr_info args labels addr)
            | .error _ =>
                match j_operation mnemonic with
                | .ok instr_info => assemble_j instr_info args labels
                | .error _ => some (.error "Failed to match instruction")
      match word with
      | none => none
      | some (.error e) => some (.error e)
      | some (.ok w) =>
          match pass2 labels rest (addr + MIPS_INSTR_BYTE_WIDTH) with
          | none => none
          | some (.error e) => some (.error e)
          | some (.ok ws) => some (.ok (w :: ws))

/-- The core of `assemble` from `name-as/src/nma.rs` (file I/O, parsing and
line-info bookkeeping stripped): run pass 1 to build the complete label
table starting at `TEXT_ADDRESS_BASE`, then run pass 2 from the same base
with that table. -/
def assembleProg (prog : List Stmt) : Option (Except String (List Nat)) :=
  let labels := (pass1 prog ([], TEXT_ADDRESS_BASE)).1
  pass2 labels prog TEXT_ADDRESS_BASE

end Nma

namespace Tok

/-- The generic `mask` from `src/nma.rs`: `n & ((1 << x) - 1)`.  It is total:
it truncates and cannot fail.  Call sites use `x ∈ {5, 6}` on u8 values. -/
def mask (n x : Nat) : Nat :=
  n &&& ((1 <<< x) - 1)

end Tok

namespace Emu

/-- One entry of `Mips.memories` in `src/mips.rs`: a backing byte pool, its
base address, and its maximum length. -/
structure Region where
  pool : List Nat
  base : Nat
  maxLength : Nat
deriving DecidableEq

/-- `ExecutionErrors` from `src/mips.rs`. -/
inductive ExecutionErrors where
  | MemoryObviouslyUninitializedAccess
  | MemoryUnknownAccess
deriving DecidableEq

/-- The outcome of a memory write: `ok`, a `Result`-carried error, or a
Rust panic (the out-of-bounds `memory[offset] = value` indexing). -/
inductive WriteOutcome where
  | ok
  | err (e : ExecutionErrors)
  | panic
deriving DecidableEq

/-- The machine state `Mips` from `src/mips.rs`.  Registers hold u32
values; the 32 floating-point registers are unused by the modeled
instruction subset and are omitted. -/
structure Mips where
  regs : Fin 32 → Nat
  mult_hi : Nat
  mult_lo : Nat
  pc : Nat
  memories : List Region

/-- Whether `address` lies in the region's `[base, base + max_length)`
range — the test `map_memory` in `src/mips.rs` applies to each region. -/
def containsAddr (r : Region) (address : Nat) : Prop :=
  r.base ≤ address ∧ address < r.base + r.maxLength

instance (r : Region) (address : Nat) : Decidable (containsAddr r address) :=
  inferInstanceAs (Decidable (_ ∧ _))

/-- `read_b` from `src/mips.rs`, fused with `map_memory`'s first-match
region scan (the Rust function returns a mutable borrow, so the scan and
the access are one recursion here): unmapped addresses are
`MemoryUnknownAccess`, mapped offsets beyond the pool length are
`MemoryObviouslyUninitializedAccess`, otherwise the stored byte. -/
def read_b_mems (mems : List Region) (address : Nat) :
    Except ExecutionErrors Nat :=
  match mems with
  | [] => .error .MemoryUnknownAccess
  | r :: rest =>
      if containsAddr r address then
        match r.pool[address - r.base]? with
        | some value => .ok value
        | none => .error .MemoryObviouslyUninitializedAccess
      else read_b_mems rest address

/-- `read_b` from `src/mips.rs`. -/
def read_b (m : Mips) (address : Nat) : Except ExecutionErrors Nat :=
  read_b_mems m.memories address

/-- `write_b` from `src/mips.rs` on the region list: the first region whose
range contains the address receives `memory[offset] = value`, which panics
(without mutating) when the offset is at or beyond the pool length.  The
returned list is the state at completion or at failure. -/
def write_b_mems (mems : List Region) (address value : Nat) :
    List Region × WriteOutcome :=
  match mems with
  | [] => ([], .err .MemoryUnknownAccess)
  | r :: rest =>
      if containsAddr r address then
        if address - r.base < r.pool.length then
          ({ r with pool := r.pool.set (address - r.base) value } :: rest, .ok)
        else (r :: rest, .panic)
      else
        let (rest2, outcome) := write_b_mems rest address value
        (r :: rest2, outcome)

/-- `write_b` from `src/mips.rs`, with the machine state returned alongside
the outcome (unchanged whenever the outcome is not `ok`). -/
def write_b (m : Mips) (address value : Nat) : Mips × WriteOutcome :=
  ({ m with memories := (write_b_mems m.memories address value).1 },
    (write_b_mems m.memories address value).2)

/-- `write_h` from `src/mips.rs`: serialize the u16 value little-endian and
write both bytes — both to `address` (the second call passes `address`
again, not `address + 1`), the low byte first. -/
def write_h (m : Mips) (address value : Nat) : Mips × WriteOutcome :=
  match write_b m address (value % 2 ^ 8) with
  | (m1, .ok) => write_b m1 address (value / 2 ^ 8 % 2 ^ 8)
  | (m1, outcome) => (m1, outcome)

/-- `write_w` from `src/mips.rs`: serialize the u32 value little-endian and
write all four bytes — every call passes the same `address`. -/
def write_w (m : Mips) (address value : Nat) : Mips × WriteOutcome :=
  match write_b m address (value % 2 ^ 8) with
  | (m1, .ok) =>
      match write_b m1 address (value / 2 ^ 8 % 2 ^ 8) with
      | (m2, .ok) =>
          match write_b m2 address (value / 2 ^ 16 % 2 ^ 8) with
          | (m3, .ok) => write_b m3 address (value / 2 ^ 24 % 2 ^ 8)
          | (m3, outcome) => (m3, outcome)
      | (m2, outcome) => (m2, outcome)
  | (m1, outcome) => (m1, outcome)

/-- `Rtype` from `src/mips.rs`.  The register indices are in-bounds
(`decode` masks them to five bits); an index is used to access
`self.regs`, whose Rust indexing would panic out of bounds. -/
structure Rtype where
  rs : Fin 32
  rt : Fin 32
  rd : Fin 32
  shamt : Nat
  funct : Nat

/-- `Itype` from `src/mips.rs`. -/
structure Itype where
  opcode : Nat
  rs : Fin 32
  rt : Fin 32
  imm : Nat

/-- `Instructions` from `src/mips.rs`. -/
inductive Instructions where
  | R (ins : Rtype)
  | I (ins : Itype)

/-- Write one register. -/
def setReg (m : Mips) (i : Fin 32) (v : Nat) : Mips :=
  { m with regs := fun j => if j = i then v else m.regs j }

/-- `dispatch_r` from `src/mips.rs`.  Known functs update `rd`; an unknown
funct is the Rust `panic!("R-Type unimplemented instruction")`, modelled by
`none`.  Additions are wrapping u32 (`% 2^32`); note that funct `0x22`
(commented `// Subtract` in the source) computes `regs[rt] + regs[rs]`,
the same expression as funct `0x20`. -/
def dispatch_r (m : Mips) (ins : Rtype) : Option Mips :=
  match ins.funct with
  | 0x0 => some (setReg m ins.rd ((m.regs ins.rt <<< ins.shamt) % 2 ^ 32))
  | 0x2 => some (setReg m ins.rd (m.regs ins.rt >>> ins.shamt))
  | 0x20 => some (setReg m ins.rd ((m.regs ins.rt + m.regs ins.rs) % 2 ^ 32))
  | 0x22 => some (setReg m ins.rd ((m.regs ins.rt + m.regs ins.rs) % 2 ^ 32))
  | 0x26 => some (setReg m ins.rd (m.regs ins.rt ^^^ m.regs ins.rs))
  | _ => none

/-- `dispatch_i` from `src/mips.rs`.  Opcode `0xD` is or-immediate (the u16
immediate zero-extends when upcast to u32); opcode `0xF` is
load-upper-immediate (`imm << 16`); anything else is the Rust
`panic!("I-type unimplemented instruction")`, modelled by `none`. -/
def dispatch_i (m : Mips) (ins : Itype) : Option Mips :=
  match ins.opcode with
  | 0xD => some (setReg m ins.rt (m.regs ins.rs ||| ins.imm))
  | 0xF => some (setReg m ins.rt ((ins.imm <<< 16) % 2 ^ 32))
  | _ => none

/-- `decode` from `src/mips.rs`: the opcode is `instruction >> 26` masked
to five bits (the source masks with `0b11111`, clipping the top opcode
bit); opcode 0 decodes as R-type — with the decoder placing `rd` at bits
20–16 and `rt` at bits 15–11 — and anything else as I-type. -/
def decode (instruction : Nat) : Instructions :=
  let opcode := (instruction >>> 26) &&& 0b11111
  if opcode = 0 then
    .R {
      rs := ⟨(instruction >>> 21) &&& 0b11111,
        Nat.lt_of_le_of_lt Nat.and_le_right (by norm_num)⟩
      rd := ⟨(instruction >>> 16) &&& 0b11111,
        Nat.lt_of_le_of_lt Nat.and_le_right (by norm_num)⟩
      rt := ⟨(instruction >>> 11) &&& 0b11111,
        Nat.lt_of_le_of_lt Nat.and_le_right (by norm_num)⟩
      shamt := (instruction >>> 6) &&& 0b11111
      funct := instruction &&& 0b111111 }
  else
    .I {
      opcode
      rs := ⟨(instruction >>> 21) &&& 0b11111,
        Nat.lt_of_le_of_lt Nat.and_le_right (by norm_num)⟩
      rt := ⟨(instruction >>> 16) &&& 0b11111,
        Nat.lt_of_le_of_lt Nat.and_le_right (by norm_num)⟩
      imm := instruction % 2 ^ 16 }

end Emu

instance exceptDecEq {ε α : Type} [DecidableEq ε] [DecidableEq α] :
    DecidableEq (Except ε α)
  | .ok a, .ok b =>
      if h : a = b then .isTrue (congrArg Except.ok h)
      else .isFalse fun hc => h (Except.ok.inj hc)
  | .ok _, .error _ => .isFalse fun hc => Except.noConfusion hc
  | .error _, .ok _ => .isFalse fun hc => Except.noConfusion hc
  | .error d, .error e =>
      if h : d = e then .isTrue (congrArg Except.error h)
      else .isFalse fun hc => h (Except.error.inj hc)

/-- Whether a statement is an instruction (the pass-1 case that advances
the address counter). -/
def isInstr : Nma.Stmt → Bool
  | .instruction _ _ => true
  | _ => false

/-- Non-overlap of memory regions — the invariant §4.5 of the spec puts on
callers of `map_memory` (never two regions containing one address). -/
def disjointRegions (mems : List Emu.Region) : Prop :=
  List.Pairwise
    (fun r1 r2 => ∀ x, ¬(Emu.containsAddr r1 x ∧ Emu.containsAddr r2 x)) mems

/-- Machine state used to exercise the dispatcher: register 2 holds 5,
register 3 holds 3, every other register 0. -/
def dispatchSample : Emu.Mips :=
  { regs := fun i => if i = 2 then 5 else if i = 3 then 3 else 0,
    mult_hi := 0, mult_lo := 0, pc := 0x400000, memories := [] }

/-- Machine state used to exercise the memory subsystem: one region based
at 100 with maximum length 10, whose backing pool holds the single
byte 7. -/
def memorySample : Emu.Mips :=
  { regs := fun _ => 0, mult_hi := 0, mult_lo := 0, pc := 0x400000,
    memories := [⟨[7], 100, 10⟩] }

/-! ## Helper lemmas -/

/-- Packing step: or-ing a value below `2^w` into a word shifted left by
`w` is addition. -/
theorem shiftLeft_or_eq_add (x imm w : Nat) (h : imm < 2 ^ w) :
    x <<< w ||| imm = x * 2 ^ w + imm := by
  rw [Nat.shiftLeft_eq, Nat.mul_comm x (2 ^ w), ← Nat.mul_add_lt_is_or h]

/-- The low `w` bits of a packed word are the value or-ed in last. -/
theorem shiftLeft_or_mod (x imm w : Nat) (h : imm < 2 ^ w) :
    (x <<< w ||| imm) % 2 ^ w = imm := by
  rw [shiftLeft_or_eq_add x imm w h, Nat.mul_comm, Nat.mul_add_mod,
    Nat.mod_eq_of_lt h]

/-- `mask_u8` succeeds, returning its input unchanged, exactly on values
that fit in the width. -/
theorem mask_u8_ok (n w : Nat) (h : n < 2 ^ w) : Nma.mask_u8 n w = .ok n := by
  unfold Nma.mask_u8
  rw [Nat.one_shiftLeft, Nat.and_pow_two_sub_one_eq_mod, Nat.mod_eq_of_lt h]
  simp

/-- The final range check of `assemble_reg`: if the guarded branch
produced `ok r`, then `r ≤ 31`. -/
theorem range_check_ok_le (reg r : Nat)
    (h : (if reg ≤ 31 then (.ok reg : Except String Nat)
          else .error "Register out of bounds") = .ok r) : r ≤ 31 := by
  split at h
  · cases h; omega
  · cases h

/-- Every successful register resolution yields an index at most 31. -/
theorem assemble_reg_ok_le (s : String) (r : Nat)
    (h : Nma.assemble_reg s = .ok r) : r ≤ 31 := by
  simp only [Nma.assemble_reg] at h
  split_ifs at h
  · cases h; omega
  · cases h; omega
  · cases h; omega
  · cases h; omega
  · cases h; omega
  · cases h; omega
  · revert h
    cases hrn : Nma.reg_number s with
    | error e => intro h; cases h
    | ok n => intro h; exact range_check_ok_le _ r h


/-! ## Claim theorems -/

/-- C1: assembling `add $t0, $zero, $zero` yields the word `0x00004020` —
funct `0x20` in bits 5–0, rd = 8 in bits 15–11, rs = rt = shamt = 0,
opcode 0; assembling `ori $t1, $zero, 0xff` yields `0x340900FF` — opcode
`0xD` in bits 31–26, rs = 0, rt = 9, imm = 255; assembling
`lui $t0, 0x1234` yields `0x3C081234` — opcode `0xF`, rt = 8,
imm = `0x1234`; all fields placed per the R layout
`[opcode:6][rs:5][rt:5][rd:5][shamt:5][funct:6]` and the I layout
`[opcode:6][rs:5][rt:5][imm:16]`. -/
theorem end_to_end_encoding :
    ((Nma.r_operation "add").bind fun r =>
        Nma.assemble_r r ["$t0", "$zero", "$zero"]) = .ok 0x00004020 ∧
    (0x00004020 : Nat) >>> 26 &&& 0x3F = 0 ∧
    (0x00004020 : Nat) >>> 21 &&& 0x1F = 0 ∧
    (0x00004020 : Nat) >>> 16 &&& 0x1F = 0 ∧
    (0x00004020 : Nat) >>> 11 &&& 0x1F = 8 ∧
    (0x00004020 : Nat) >>> 6 &&& 0x1F = 0 ∧
    (0x00004020 : Nat) &&& 0x3F = 0x20 ∧
    ((Nma.i_operation "ori").bind fun i =>
        Nma.assemble_i i ["$t1", "$zero", "0xff"] []
          Nma.TEXT_ADDRESS_BASE) = .ok 0x340900FF ∧
    (0x340900FF : Nat) >>> 26 = 0xD ∧
    (0x340900FF : Nat) >>> 21 &&& 0x1F = 0 ∧
    (0x340900FF : Nat) >>> 16 &&& 0x1F = 9 ∧
    (0x340900FF : Nat) % 2 ^ 16 = 255 ∧
    ((Nma.i_operation "lui").bind fun i =>
        Nma.assemble_i i ["$t0", "0x1234"] []
          Nma.TEXT_ADDRESS_BASE) = .ok 0x3C081234 ∧
    (0x3C081234 : Nat) >>> 26 = 0xF ∧
    (0x3C081234 : Nat) >>> 16 &&& 0x1F = 8 ∧
    (0x3C081234 : Nat) % 2 ^ 16 = 0x1234 := by
  decide

/-- C2: dispatch semantics at concrete decoded instructions, with
registers 5 (in rs slot, register 2) and 3 (in rt slot, register 3).
Funct `0x0` shifts left, `0x2` shifts right, `0x20` adds, `0x26` xors;
opcode `0xD` or-immediates with the zero-extended immediate, `0xF` places
the immediate in the upper 16 bits with a zero lower half.  But funct
`0x22` — subtraction per the claim — computes the addition
`regs[rt] + regs[rs] = 8`, which differs from either wrapping u32
difference of the operands. -/
theorem dispatch_funct22_is_addition :
    ((Emu.dispatch_r dispatchSample ⟨2, 3, 1, 4, 0x0⟩).map
        fun s => s.regs 1) = some 48 ∧
    ((Emu.dispatch_r dispatchSample ⟨2, 3, 1, 1, 0x2⟩).map
        fun s => s.regs 1) = some 1 ∧
    ((Emu.dispatch_r dispatchSample ⟨2, 3, 1, 0, 0x20⟩).map
        fun s => s.regs 1) = some 8 ∧
    ((Emu.dispatch_r dispatchSample ⟨2, 3, 1, 0, 0x26⟩).map
        fun s => s.regs 1) = some 6 ∧
    ((Emu.dispatch_r dispatchSample ⟨2, 3, 1, 0, 0x22⟩).map
        fun s => s.regs 1) = some 8 ∧
    (8 : Nat) = (dispatchSample.regs 3 + dispatchSample.regs 2) % 2 ^ 32 ∧
    (8 : Nat) ≠
      (dispatchSample.regs 3 + 2 ^ 32 - dispatchSample.regs 2) % 2 ^ 32 ∧
    (8 : Nat) ≠
      (dispatchSample.regs 2 + 2 ^ 32 - dispatchSample.regs 3) % 2 ^ 32 ∧
    ((Emu.dispatch_i dispatchSample ⟨0xD, 2, 1, 0xFF⟩).map
        fun s => s.regs 1) = some 255 ∧
    ((Emu.dispatch_i dispatchSample ⟨0xF, 2, 1, 0x1234⟩).map
        fun s => s.regs 1) = some 0x12340000 ∧
    (0x12340000 : Nat) >>> 16 = 0x1234 ∧
    (0x12340000 : Nat) % 2 ^ 16 = 0 := by
  decide

/-- C4 counterexample: the token-stream assembler's `mask` silently
truncates — at value 32 and width 5 it returns 0 rather than failing
with an overflow condition (its type admits no failure at all). -/
theorem tok_mask_truncates_silently :
    Tok.mask 32 5 = 0 ∧ Tok.mask 32 5 ≠ 32 := by
  decide

/-- C4 amended: the syntax-tree assembler's `mask_u8`/`mask_u32` return
the value unchanged when it fits in the width and fail with the masking
error whenever `v ≥ 2^w` (for widths within the value type), and both are
idempotent; the token-stream assembler's generic `mask` never fails — it
truncates to `v % 2^w` — and is idempotent. -/
theorem mask_amended_spec :
    (∀ n x : Nat, n &&& ((1 <<< x) - 1) = n → Nma.mask_u8 n x = .ok n) ∧
    (∀ n x : Nat, x < 8 → n < 2 ^ 8 → 2 ^ x ≤ n →
      Nma.mask_u8 n x = .error "Masking error") ∧
    (∀ n x : Nat, n &&& ((1 <<< x) - 1) = n → Nma.mask_u32 n x = .ok n) ∧
    (∀ n x : Nat, x < 32 → n < 2 ^ 32 → 2 ^ x ≤ n →
      Nma.mask_u32 n x = .error "Masking error") ∧
    (∀ n x : Nat,
      (Nma.mask_u8 n x).bind (fun v => Nma.mask_u8 v x) = Nma.mask_u8 n x) ∧
    (∀ n x : Nat,
      (Nma.mask_u32 n x).bind (fun v => Nma.mask_u32 v x) =
        Nma.mask_u32 n x) ∧
    (∀ n x : Nat, Tok.mask n x = n % 2 ^ x) ∧
    (∀ n x : Nat, Tok.mask (Tok.mask n x) x = Tok.mask n x) := by
  have hmod : ∀ n x : Nat, n &&& ((1 <<< x) - 1) = n % 2 ^ x := by
    intro n x
    rw [Nat.one_shiftLeft, Nat.and_pow_two_sub_one_eq_mod]
  have hok8 : ∀ n x : Nat, n &&& ((1 <<< x) - 1) = n →
      Nma.mask_u8 n x = .ok n := by
    intro n x h
    unfold Nma.mask_u8
    simp [h]
  have hok32 : ∀ n x : Nat, n &&& ((1 <<< x) - 1) = n →
      Nma.mask_u32 n x = .ok n := by
    intro n x h
    unfold Nma.mask_u32
    simp [h]
  have hne : ∀ n x : Nat, 2 ^ x ≤ n → n &&& ((1 <<< x) - 1) ≠ n := by
    intro n x hge
    rw [hmod]
    have hlt : n % 2 ^ x < 2 ^ x := Nat.mod_lt n (Nat.pos_pow_of_pos x (by omega))
    omega
  have herr8 : ∀ n x : Nat, 2 ^ x ≤ n →
      Nma.mask_u8 n x = .error "Masking error" := by
    intro n x hge
    unfold Nma.mask_u8
    simp [hne n x hge]
  have herr32 : ∀ n x : Nat, 2 ^ x ≤ n →
      Nma.mask_u32 n x = .error "Masking error" := by
    intro n x hge
    unfold Nma.mask_u32
    simp [hne n x hge]
  have hidem8 : ∀ n x : Nat,
      (Nma.mask_u8 n x).bind (fun v => Nma.mask_u8 v x) = Nma.mask_u8 n x := by
    intro n x
    by_cases h : n &&& ((1 <<< x) - 1) = n
    · rw [hok8 n x h]
      exact hok8 n x h
    · have he : Nma.mask_u8 n x = .error "Masking error" := by
        unfold Nma.mask_u8
        simp [h]
      rw [he]
      rfl
  have hidem32 : ∀ n x : Nat,
      (Nma.mask_u32 n x).bind (fun v => Nma.mask_u32 v x) =
        Nma.mask_u32 n x := by
    intro n x
    by_cases h : n &&& ((1 <<< x) - 1) = n
    · rw [hok32 n x h]
      exact hok32 n x h
    · have he : Nma.mask_u32 n x = .error "Masking error" := by
        unfold Nma.mask_u32
        simp [h]
      rw [he]
      rfl
  have htok : ∀ n x : Nat, Tok.mask n x = n % 2 ^ x := by
    intro n x
    unfold Tok.mask
    exact hmod n x
  refine ⟨hok8, fun n x _ _ => herr8 n x, hok32, fun n x _ _ => herr32 n x,
    hidem8, hidem32, htok, ?_⟩
  intro n x
  rw [htok, htok, Nat.mod_mod_of_dvd n dvd_rfl]

/-- C4 witness: the amended mask specification at concrete inputs. -/
theorem mask_amended_spec_witness :
    Nma.mask_u8 31 5 = .ok 31 ∧
    Nma.mask_u8 32 5 = .error "Masking error" ∧
    Nma.mask_u32 0xFFFFFFF 28 = .ok 0xFFFFFFF ∧
    Nma.mask_u32 0x10000000 28 = .error "Masking error" :=
  ⟨mask_amended_spec.1 31 5 (by decide),
   mask_amended_spec.2.1 32 5 (by decide) (by decide) (by decide),
   mask_amended_spec.2.2.1 0xFFFFFFF 28 (by decide),
   mask_amended_spec.2.2.2.1 0x10000000 28 (by decide) (by decide)
     (by decide)⟩

/-- C7: a branch (`beq`) to an undeclared label fails with the
`Undeclared label` error, but a jump (`j`) to an undeclared label does
not — `assemble_j` evaluates `labels[j_args[0]]`, which panics on an
absent key (modelled by `none`), so no `UndeclaredLabel` error is
returned on the jump path. -/
theorem undeclared_label_outcomes :
    Nma.i_operation "beq" = .ok ⟨0x4, .RsRtLabel⟩ ∧
    Nma.assemble_i ⟨0x4, .RsRtLabel⟩ ["$t0", "$t1", "missing"] []
      Nma.TEXT_ADDRESS_BASE = .error "Undeclared label" ∧
    Nma.j_operation "j" = .ok ⟨0x2⟩ ∧
    Nma.assemble_j ⟨0x2⟩ ["missing"] [] = none :=
  ⟨rfl, rfl, rfl, rfl⟩

/-- C8 counterexample: the bare decimal literal `5` — a valid register
index — is rejected by register resolution (the token is shorter than the
three characters `reg_number` demands), so bare decimal literals are not
accepted in general. -/
theorem bare_literal_rejected :
    Nma.assemble_reg "5" = .error "Mnemonic out of bounds" := rfl

/-- C8 amended: named aliases and the numbered families resolve per the
reference table (with the split `t` numbering), every successful
resolution yields an index ≤ 31, and a bare decimal literal is accepted
only as a three-character digit-suffixed token parsing to at most 31
(e.g. `025`), while a short literal such as `5` is rejected. -/
theorem assemble_reg_amended_spec :
    ["$zero", "$at", "$gp", "$sp", "$fp", "$ra"].map Nma.assemble_reg
      = [.ok 0, .ok 1, .ok 28, .ok 29, .ok 30, .ok 31] ∧
    ["$v0", "$v1"].map Nma.assemble_reg = [.ok 2, .ok 3] ∧
    ["$a0", "$a1", "$a2", "$a3"].map Nma.assemble_reg
      = [.ok 4, .ok 5, .ok 6, .ok 7] ∧
    ["$t0", "$t1", "$t2", "$t3", "$t4", "$t5", "$t6", "$t7"].map
        Nma.assemble_reg
      = [.ok 8, .ok 9, .ok 10, .ok 11, .ok 12, .ok 13, .ok 14, .ok 15] ∧
    ["$t8", "$t9"].map Nma.assemble_reg = [.ok 24, .ok 25] ∧
    ["$s0", "$s1", "$s2", "$s3", "$s4", "$s5", "$s6", "$s7"].map
        Nma.assemble_reg
      = [.ok 16, .ok 17, .ok 18, .ok 19, .ok 20, .ok 21, .ok 22, .ok 23] ∧
    Nma.assemble_reg "025" = .ok 25 ∧
    Nma.assemble_reg "5" = .error "Mnemonic out of bounds" ∧
    (∀ s r, Nma.assemble_reg s = .ok r → r ≤ 31) :=
  ⟨rfl, rfl, rfl, rfl, rfl, rfl, rfl, rfl, assemble_reg_ok_le⟩

/-- C8 witness: the image bound of the amended specification applied at
the concrete token `$t5`. -/
theorem assemble_reg_amended_spec_witness : (13 : Nat) ≤ 31 :=
  assemble_reg_amended_spec.2.2.2.2.2.2.2.2 "$t5" 13 (by decide)

/-- Pass 1 distributes over concatenation of the statement list. -/
theorem pass1_append (xs ys : List Nma.Stmt) (st : List (String × Nat) × Nat) :
    Nma.pass1 (xs ++ ys) st = Nma.pass1 ys (Nma.pass1 xs st) := by
  induction xs generalizing st with
  | nil => rfl
  | cons x xs ih => cases x <;> simp [Nma.pass1, ih]

/-- After pass 1 the address counter has advanced by exactly 4 per
instruction statement — labels and directives advance it by nothing. -/
theorem pass1_addr (xs : List Nma.Stmt) (st : List (String × Nat) × Nat) :
    (Nma.pass1 xs st).2
      = st.2 + Nma.MIPS_INSTR_BYTE_WIDTH * (xs.filter isInstr).length := by
  induction xs generalizing st with
  | nil => simp [Nma.pass1]
  | cons x xs ih =>
      cases x with
      | label l => simp [Nma.pass1, isInstr, ih]
      | directive m a => simp [Nma.pass1, isInstr, ih]
      | instruction m a =>
          simp [Nma.pass1, isInstr, ih, Nma.MIPS_INSTR_BYTE_WIDTH]
          omega

/-- Statements that declare no binding for `l` leave its lookup in the
label table unchanged. -/
theorem pass1_lookup_stable (xs : List Nma.Stmt) (l : String)
    (h : Nma.Stmt.label l ∉ xs) (st : List (String × Nat) × Nat) :
    Nma.lookupLabel (Nma.pass1 xs st).1 l = Nma.lookupLabel st.1 l := by
  induction xs generalizing st with
  | nil => rfl
  | cons x xs ih =>
      cases x with
      | label l2 =>
          have hne : l2 ≠ l := by
            intro hEq
            exact h (by simp [hEq])
          have htail : Nma.Stmt.label l ∉ xs :=
            fun hm => h (List.mem_cons_of_mem _ hm)
          show Nma.lookupLabel (Nma.pass1 xs ((l2, st.2) :: st.1, st.2)).1 l = _
          rw [ih htail]
          simp [Nma.lookupLabel, hne]
      | directive m a =>
          exact ih (fun hm => h (List.mem_cons_of_mem _ hm)) st
      | instruction m a =>
          exact ih (fun hm => h (List.mem_cons_of_mem _ hm)) _

/-- C5: pass 1 starts the counter at the text-segment base; a label
records the current counter without advancing it, a directive does not
advance it, and an instruction advances it by exactly 4 — so a label
(here the last declaration of `l`) is recorded at the base plus 4 times
the number of instruction statements before it, regardless of what
follows; and the full assembler encodes (pass 2) with the completed
pass-1 table of the whole program. -/
theorem pass1_label_addresses (pre post : List Nma.Stmt) (l : String)
    (h : Nma.Stmt.label l ∉ post) :
    Nma.lookupLabel
        (Nma.pass1 (pre ++ Nma.Stmt.label l :: post)
          ([], Nma.TEXT_ADDRESS_BASE)).1 l
      = some (Nma.TEXT_ADDRESS_BASE +
          Nma.MIPS_INSTR_BYTE_WIDTH * (pre.filter isInstr).length) ∧
    Nma.assembleProg (pre ++ Nma.Stmt.label l :: post)
      = Nma.pass2
          (Nma.pass1 (pre ++ Nma.Stmt.label l :: post)
            ([], Nma.TEXT_ADDRESS_BASE)).1
          (pre ++ Nma.Stmt.label l :: post) Nma.TEXT_ADDRESS_BASE := by
  constructor
  · rw [pass1_append]
    show Nma.lookupLabel
        (Nma.pass1 post
          ((l, (Nma.pass1 pre ([], Nma.TEXT_ADDRESS_BASE)).2) ::
              (Nma.pass1 pre ([], Nma.TEXT_ADDRESS_BASE)).1,
            (Nma.pass1 pre ([], Nma.TEXT_ADDRESS_BASE)).2)).1 l = _
    rw [pass1_lookup_stable post l h]
    simp [Nma.lookupLabel, pass1_addr]
  · rfl

/-- C5 witness: a program whose `beq` references a label declared later
(after an instruction and a directive); the label lands at base + 4. -/
theorem pass1_label_addresses_witness :
    Nma.lookupLabel
        (Nma.pass1 ([Nma.Stmt.instruction "add" ["$t0", "$zero", "$zero"],
            Nma.Stmt.directive "text" []] ++ Nma.Stmt.label "loop" ::
            [Nma.Stmt.instruction "beq" ["$t0", "$t1", "loop"]])
          ([], Nma.TEXT_ADDRESS_BASE)).1 "loop" = some 0x400004 ∧
    Nma.assembleProg
        ([Nma.Stmt.instruction "add" ["$t0", "$zero", "$zero"],
          Nma.Stmt.directive "text" []] ++ Nma.Stmt.label "loop" ::
          [Nma.Stmt.instruction "beq" ["$t0", "$t1", "loop"]])
      = Nma.pass2
          (Nma.pass1
            ([Nma.Stmt.instruction "add" ["$t0", "$zero", "$zero"],
              Nma.Stmt.directive "text" []] ++ Nma.Stmt.label "loop" ::
              [Nma.Stmt.instruction "beq" ["$t0", "$t1", "loop"]])
            ([], Nma.TEXT_ADDRESS_BASE)).1
          ([Nma.Stmt.instruction "add" ["$t0", "$zero", "$zero"],
            Nma.Stmt.directive "text" []] ++ Nma.Stmt.label "loop" ::
            [Nma.Stmt.instruction "beq" ["$t0", "$t1", "loop"]])
          Nma.TEXT_ADDRESS_BASE :=
  pass1_label_addresses
    [Nma.Stmt.instruction "add" ["$t0", "$zero", "$zero"],
      Nma.Stmt.directive "text" []]
    [Nma.Stmt.instruction "beq" ["$t0", "$t1", "loop"]] "loop" (by decide)

/-- Wrapping u32 subtraction then truncation to 16 bits agrees with the
integer difference modulo `2^16`. -/
theorem u32_sub_mod_int (v addr : Nat) (hv : v < 2 ^ 32) (ha : addr < 2 ^ 32) :
    ((Nma.u32_sub v addr % 2 ^ 16 : Nat) : Int)
      = ((v : Int) - (addr : Int)) % 2 ^ 16 := by
  unfold Nma.u32_sub
  omega

/-- Branch encoding: for the `RsRtLabel` form with a declared label, the
assembled word packs the wrapped difference `label - address` (truncated
to 16 bits) as the immediate. -/
theorem assemble_i_branch_eq (op : Nat) (hop : op < 2 ^ 6)
    (rs rt lbl : String) (tbl : List (String × Nat)) (addr v a b : Nat)
    (hrs : Nma.assemble_reg rs = .ok a) (hrt : Nma.assemble_reg rt = .ok b)
    (hl : Nma.lookupLabel tbl lbl = some v) :
    Nma.assemble_i ⟨op, .RsRtLabel⟩ [rs, rt, lbl] tbl addr
      = .ok ((((op <<< 5) ||| a) <<< 5 ||| b) <<< 16 |||
          (Nma.u32_sub v addr % 2 ^ 16)) := by
  have ha31 := assemble_reg_ok_le rs a hrs
  have hb31 := assemble_reg_ok_le rt b hrt
  have hma : Nma.mask_u8 a 5 = .ok a := mask_u8_ok a 5 (by omega)
  have hmb : Nma.mask_u8 b 5 = .ok b := mask_u8_ok b 5 (by omega)
  have hmo : Nma.mask_u8 op 6 = .ok op := mask_u8_ok op 6 hop
  simp only [Nma.assemble_i, Nma.enforce_length, List.length_cons,
    List.length_nil, List.getD_cons_zero, List.getD_cons_succ,
    hrs, hrt, hl, hma, hmb, hmo]
  simp only [Bind.bind, Except.bind, pure, Except.pure, hma, hmb]
  norm_num

/-- C6: for a branch (`beq`/`bne`) whose target label is declared, the
low 16 bits of the encoded word equal `label_address − instr_address`
taken modulo `2^16` — in particular no division by the 4-byte
instruction width is applied. -/
theorem branch_immediate_no_division
    (mn rs rt lbl : String) (tbl : List (String × Nat)) (addr v a b : Nat)
    (hmn : mn = "beq" ∨ mn = "bne")
    (hrs : Nma.assemble_reg rs = .ok a) (hrt : Nma.assemble_reg rt = .ok b)
    (hl : Nma.lookupLabel tbl lbl = some v)
    (hv : v < 2 ^ 32) (ha : addr < 2 ^ 32) :
    ((Nma.i_operation mn).bind fun i =>
        Nma.assemble_i i [rs, rt, lbl] tbl addr).map
        (fun w => ((w % 2 ^ 16 : Nat) : Int))
      = .ok (((v : Int) - (addr : Int)) % 2 ^ 16) := by
  have key : ∀ op : Nat, op < 2 ^ 6 →
      (Nma.assemble_i ⟨op, .RsRtLabel⟩ [rs, rt, lbl] tbl addr).map
          (fun w => ((w % 2 ^ 16 : Nat) : Int))
        = .ok (((v : Int) - (addr : Int)) % 2 ^ 16) := by
    intro op hop
    rw [assemble_i_branch_eq op hop rs rt lbl tbl addr v a b hrs hrt hl]
    show Except.ok
        ((((((op <<< 5) ||| a) <<< 5 ||| b) <<< 16 |||
            (Nma.u32_sub v addr % 2 ^ 16)) % 2 ^ 16 : Nat) : Int) = _
    rw [shiftLeft_or_mod _ _ 16 (Nat.mod_lt _ (by norm_num))]
    rw [u32_sub_mod_int v addr hv ha]
  rcases hmn with rfl | rfl
  · exact key 4 (by norm_num)
  · exact key 5 (by norm_num)

/-- C6 witness: a forward `beq` to a label 8 bytes ahead encodes
immediate 8 (not 2). -/
theorem branch_immediate_no_division_witness :
    ((Nma.i_operation "beq").bind fun i =>
        Nma.assemble_i i ["$t0", "$t1", "L"] [("L", 0x400008)] 0x400000).map
        (fun w => ((w % 2 ^ 16 : Nat) : Int))
      = .ok 8 :=
  branch_immediate_no_division "beq" "$t0" "$t1" "L" [("L", 0x400008)]
    0x400000 0x400008 8 9 (Or.inl rfl) (by decide) (by decide) (by decide)
    (by norm_num) (by norm_num)

/-- A write at an address contained in no region reports
`MemoryUnknownAccess` and leaves the region list unchanged. -/
theorem write_b_mems_unmapped (mems : List Emu.Region) (a v : Nat)
    (h : ∀ r ∈ mems, ¬ Emu.containsAddr r a) :
    Emu.write_b_mems mems a v = (mems, .err .MemoryUnknownAccess) := by
  induction mems with
  | nil => rfl
  | cons r rest ih =>
      have hr : ¬ Emu.containsAddr r a := h r (by simp)
      have hrest := ih (fun r2 h2 => h r2 (List.mem_cons_of_mem _ h2))
      simp [Emu.write_b_mems, hr, hrest]

/-- A write at an offset at or beyond the backing pool's length panics
(the Rust `memory[offset] = value` indexing) and leaves the region list
unchanged. -/
theorem write_b_mems_beyond (mems : List Emu.Region) (a v : Nat)
    (r : Emu.Region) (hdisj : disjointRegions mems) (hr : r ∈ mems)
    (hc : Emu.containsAddr r a) (hlen : r.pool.length ≤ a - r.base) :
    Emu.write_b_mems mems a v = (mems, .panic) := by
  induction mems with
  | nil => simp at hr
  | cons region rest ih =>
      rcases List.pairwise_cons.mp hdisj with ⟨hhead, hdtail⟩
      by_cases hcr : Emu.containsAddr region a
      · rcases List.mem_cons.mp hr with rfl | hr2
        · have hnot : ¬ (a - r.base < r.pool.length) := by omega
          simp [Emu.write_b_mems, hcr, hnot]
        · exact absurd ⟨hcr, hc⟩ (hhead r hr2 a)
      · rcases List.mem_cons.mp hr with rfl | hr2
        · exact absurd hc hcr
        · have hrest := ih hdtail hr2
          simp [Emu.write_b_mems, hcr, hrest]

/-- C9: `write_b` fails with `MemoryUnknownAccess` for every unmapped
address; and for an address inside a region's interval whose offset is at
or beyond the backing length it does not succeed — it panics rather than
growing the backing store, with the machine state (hence the pool's
contents and length) unchanged. -/
theorem write_b_no_growth (m : Emu.Mips) (a v : Nat)
    (hdisj : disjointRegions m.memories) :
    ((∀ r ∈ m.memories, ¬ Emu.containsAddr r a) →
      Emu.write_b m a v = (m, .err .MemoryUnknownAccess)) ∧
    (∀ r ∈ m.memories, Emu.containsAddr r a → r.pool.length ≤ a - r.base →
      Emu.write_b m a v = (m, .panic) ∧ (Emu.write_b m a v).2 ≠ .ok) := by
  constructor
  · intro h
    unfold Emu.write_b
    rw [write_b_mems_unmapped m.memories a v h]
  · intro r hr hc hlen
    unfold Emu.write_b
    rw [write_b_mems_beyond m.memories a v r hdisj hr hc hlen]
    exact ⟨rfl, by simp⟩

/-- C9 witness: on a concrete machine, a write at unmapped address 50
fails fatally, and a write at mapped-but-ungrown address 105 panics with
the state unchanged. -/
theorem write_b_no_growth_witness :
    Emu.write_b memorySample 50 1 = (memorySample, .err .MemoryUnknownAccess) ∧
    Emu.write_b memorySample 105 1 = (memorySample, .panic) ∧
    (Emu.write_b memorySample 105 1).2 ≠ .ok :=
  ⟨(write_b_no_growth memorySample 50 1
      (by simp [disjointRegions, memorySample])).1 (by decide),
   ((write_b_no_growth memorySample 105 1
      (by simp [disjointRegions, memorySample])).2
      ⟨[7], 100, 10⟩ (by simp [memorySample]) (by decide) (by decide)).1,
   ((write_b_no_growth memorySample 105 1
      (by simp [disjointRegions, memorySample])).2
      ⟨[7], 100, 10⟩ (by simp [memorySample]) (by decide) (by decide)).2⟩

/-- Frame property of a successful byte write: reads at every other
address are unchanged. -/
theorem write_b_mems_frame (mems : List Emu.Region) (a v b : Nat)
    (hne : b ≠ a) (h : (Emu.write_b_mems mems a v).2 = .ok) :
    Emu.read_b_mems (Emu.write_b_mems mems a v).1 b
      = Emu.read_b_mems mems b := by
  induction mems with
  | nil => simp [Emu.write_b_mems] at h
  | cons region rest ih =>
      by_cases hcr : Emu.containsAddr region a
      · by_cases hlt : a - region.base < region.pool.length
        · have hw : Emu.write_b_mems (region :: rest) a v =
              ({ region with
                  pool := region.pool.set (a - region.base) v } :: rest,
                .ok) := by
            simp [Emu.write_b_mems, hcr, hlt]
          rw [hw]
          by_cases hcb : Emu.containsAddr region b
          · have hcb2 : Emu.containsAddr
                { region with
                    pool := region.pool.set (a - region.base) v } b := hcb
            have hoff : b - region.base ≠ a - region.base := by
              rcases hcr with ⟨hc1, hc2⟩
              rcases hcb with ⟨hb1, hb2⟩
              omega
            simp only [Emu.read_b_mems, if_pos hcb, if_pos hcb2]
            rw [List.getElem?_set_ne hoff.symm]
          · have hcb2 : ¬ Emu.containsAddr
                { region with
                    pool := region.pool.set (a - region.base) v } b := hcb
            simp only [Emu.read_b_mems, if_neg hcb, if_neg hcb2]
        · simp [Emu.write_b_mems, hcr, hlt] at h
      · have hw : Emu.write_b_mems (region :: rest) a v =
            (region :: (Emu.write_b_mems rest a v).1,
              (Emu.write_b_mems rest a v).2) := by
          simp [Emu.write_b_mems, hcr]
        rw [hw] at h ⊢
        by_cases hcb : Emu.containsAddr region b
        · simp only [Emu.read_b_mems, if_pos hcb]
        · simp only [Emu.read_b_mems, if_neg hcb]
          exact ih h

/-- A successful byte write is read back at the written address. -/
theorem write_b_mems_readback (mems : List Emu.Region) (a v : Nat)
    (h : (Emu.write_b_mems mems a v).2 = .ok) :
    Emu.read_b_mems (Emu.write_b_mems mems a v).1 a = .ok v := by
  induction mems with
  | nil => simp [Emu.write_b_mems] at h
  | cons region rest ih =>
      by_cases hcr : Emu.containsAddr region a
      · by_cases hlt : a - region.base < region.pool.length
        · have hw : Emu.write_b_mems (region :: rest) a v =
              ({ region with
                  pool := region.pool.set (a - region.base) v } :: rest,
                .ok) := by
            simp [Emu.write_b_mems, hcr, hlt]
          rw [hw]
          have hcr2 : Emu.containsAddr
              { region with
                  pool := region.pool.set (a - region.base) v } a := hcr
          simp only [Emu.read_b_mems, if_pos hcr2]
          rw [List.getElem?_set_eq_of_lt v hlt]
        · simp [Emu.write_b_mems, hcr, hlt] at h
      · have hw : Emu.write_b_mems (region :: rest) a v =
            (region :: (Emu.write_b_mems rest a v).1,
              (Emu.write_b_mems rest a v).2) := by
          simp [Emu.write_b_mems, hcr]
        rw [hw] at h ⊢
        simp only [Emu.read_b_mems, if_neg hcr]
        exact ih h

theorem write_b_frame (m : Emu.Mips) (a v b : Nat) (hne : b ≠ a)
    (h : (Emu.write_b m a v).2 = .ok) :
    Emu.read_b (Emu.write_b m a v).1 b = Emu.read_b m b :=
  write_b_mems_frame m.memories a v b hne h

theorem write_b_readback (m : Emu.Mips) (a v : Nat)
    (h : (Emu.write_b m a v).2 = .ok) :
    Emu.read_b (Emu.write_b m a v).1 a = .ok v :=
  write_b_mems_readback m.memories a v h

/-- C10: `write_h` and `write_w` pass the same address to every component
byte write — when `write_w` succeeds the bytes at `a+1`, `a+2`, `a+3` are
unchanged and the byte at `a` is the last byte written, the most
significant serialized byte of the value; when `write_h` succeeds the
byte at `a+1` is unchanged and `a` holds its second (high) serialized
byte. -/
theorem write_same_address_frame (m : Emu.Mips) (a v : Nat) :
    ((Emu.write_w m a v).2 = .ok →
      Emu.read_b (Emu.write_w m a v).1 (a + 1) = Emu.read_b m (a + 1) ∧
      Emu.read_b (Emu.write_w m a v).1 (a + 2) = Emu.read_b m (a + 2) ∧
      Emu.read_b (Emu.write_w m a v).1 (a + 3) = Emu.read_b m (a + 3) ∧
      Emu.read_b (Emu.write_w m a v).1 a = .ok (v / 2 ^ 24 % 2 ^ 8)) ∧
    ((Emu.write_h m a v).2 = .ok →
      Emu.read_b (Emu.write_h m a v).1 (a + 1) = Emu.read_b m (a + 1) ∧
      Emu.read_b (Emu.write_h m a v).1 a = .ok (v / 2 ^ 8 % 2 ^ 8)) := by
  constructor
  · unfold Emu.write_w
    rcases h1 : Emu.write_b m a (v % 2 ^ 8) with ⟨m1, o1⟩
    cases o1 with
    | ok =>
        have s1 : (Emu.write_b m a (v % 2 ^ 8)).2 = .ok := by rw [h1]
        have f1 : ∀ b, b ≠ a → Emu.read_b m1 b = Emu.read_b m b := by
          intro b hb
          have := write_b_frame m a (v % 2 ^ 8) b hb s1
          rwa [h1] at this
        dsimp only
        rcases h2 : Emu.write_b m1 a (v / 2 ^ 8 % 2 ^ 8) with ⟨m2, o2⟩
        cases o2 with
        | ok =>
            have s2 : (Emu.write_b m1 a (v / 2 ^ 8 % 2 ^ 8)).2 = .ok := by
              rw [h2]
            have f2 : ∀ b, b ≠ a → Emu.read_b m2 b = Emu.read_b m1 b := by
              intro b hb
              have := write_b_frame m1 a (v / 2 ^ 8 % 2 ^ 8) b hb s2
              rwa [h2] at this
            dsimp only
            rcases h3 : Emu.write_b m2 a (v / 2 ^ 16 % 2 ^ 8) with ⟨m3, o3⟩
            cases o3 with
            | ok =>
                have s3 : (Emu.write_b m2 a (v / 2 ^ 16 % 2 ^ 8)).2 = .ok := by
                  rw [h3]
                have f3 : ∀ b, b ≠ a → Emu.read_b m3 b = Emu.read_b m2 b := by
                  intro b hb
                  have := write_b_frame m2 a (v / 2 ^ 16 % 2 ^ 8) b hb s3
                  rwa [h3] at this
                dsimp only
                intro h4
                refine ⟨?_, ?_, ?_, ?_⟩
                · rw [write_b_frame m3 a (v / 2 ^ 24 % 2 ^ 8) (a + 1)
                      (by omega) h4, f3 (a + 1) (by omega),
                    f2 (a + 1) (by omega), f1 (a + 1) (by omega)]
                · rw [write_b_frame m3 a (v / 2 ^ 24 % 2 ^ 8) (a + 2)
                      (by omega) h4, f3 (a + 2) (by omega),
                    f2 (a + 2) (by omega), f1 (a + 2) (by omega)]
                · rw [write_b_frame m3 a (v / 2 ^ 24 % 2 ^ 8) (a + 3)
                      (by omega) h4, f3 (a + 3) (by omega),
                    f2 (a + 3) (by omega), f1 (a + 3) (by omega)]
                · exact write_b_readback m3 a (v / 2 ^ 24 % 2 ^ 8) h4
            | err e =>
                intro h4
                simp at h4
            | panic =>
                intro h4
                simp at h4
        | err e =>
            intro h4
            simp at h4
        | panic =>
            intro h4
            simp at h4
    | err e =>
        intro h4
        simp at h4
    | panic =>
        intro h4
        simp at h4
  · unfold Emu.write_h
    rcases h1 : Emu.write_b m a (v % 2 ^ 8) with ⟨m1, o1⟩
    cases o1 with
    | ok =>
        have s1 : (Emu.write_b m a (v % 2 ^ 8)).2 = .ok := by rw [h1]
        have f1 : ∀ b, b ≠ a → Emu.read_b m1 b = Emu.read_b m b := by
          intro b hb
          have := write_b_frame m a (v % 2 ^ 8) b hb s1
          rwa [h1] at this
        dsimp only
        intro h2
        refine ⟨?_, ?_⟩
        · rw [write_b_frame m1 a (v / 2 ^ 8 % 2 ^ 8) (a + 1) (by omega) h2,
            f1 (a + 1) (by omega)]
        · exact write_b_readback m1 a (v / 2 ^ 8 % 2 ^ 8) h2
    | err e =>
        intro h2
        simp at h2
    | panic =>
        intro h2
        simp at h2

/-- C10 witness: on a concrete machine, writing the word `0x0A0B0C0D` at
address 100 leaves 101–103 unchanged and stores only `0x0A` at 100;
writing the halfword `0x0102` leaves 101 unchanged and stores `0x01`. -/
theorem write_same_address_frame_witness :
    Emu.read_b (Emu.write_w memorySample 100 0x0A0B0C0D).1 (100 + 1)
      = Emu.read_b memorySample (100 + 1) ∧
    Emu.read_b (Emu.write_w memorySample 100 0x0A0B0C0D).1 (100 + 2)
      = Emu.read_b memorySample (100 + 2) ∧
    Emu.read_b (Emu.write_w memorySample 100 0x0A0B0C0D).1 (100 + 3)
      = Emu.read_b memorySample (100 + 3) ∧
    Emu.read_b (Emu.write_w memorySample 100 0x0A0B0C0D).1 100 = .ok 0x0A ∧
    Emu.read_b (Emu.write_h memorySample 100 0x0102).1 (100 + 1)
      = Emu.read_b memorySample (100 + 1) ∧
    Emu.read_b (Emu.write_h memorySample 100 0x0102).1 100 = .ok 0x01 :=
  ⟨((write_same_address_frame memorySample 100 0x0A0B0C0D).1 (by decide)).1,
   ((write_same_address_frame memorySample 100 0x0A0B0C0D).1 (by decide)).2.1,
   ((write_same_address_frame memorySample 100 0x0A0B0C0D).1
      (by decide)).2.2.1,
   ((write_same_address_frame memorySample 100 0x0A0B0C0D).1
      (by decide)).2.2.2,
   ((write_same_address_frame memorySample 100 0x0102).2 (by decide)).1,
   ((write_same_address_frame memorySample 100 0x0102).2 (by decide)).2⟩

/-- Region-list level three-state read specification, by induction over the
region scan of `map_memory`/`read_b`. -/
theorem read_b_mems_spec (mems : List Emu.Region) (a : Nat)
    (hdisj : disjointRegions mems) :
    (Emu.read_b_mems mems a = .error .MemoryUnknownAccess ↔
      ∀ r ∈ mems, ¬ Emu.containsAddr r a) ∧
    (Emu.read_b_mems mems a = .error .MemoryObviouslyUninitializedAccess ↔
      ∃ r ∈ mems, Emu.containsAddr r a ∧ r.pool.length ≤ a - r.base) ∧
    (∀ r ∈ mems, Emu.containsAddr r a →
      ∀ value, r.pool[a - r.base]? = some value →
        Emu.read_b_mems mems a = .ok value) := by
  induction mems with
  | nil =>
      refine ⟨by simp [Emu.read_b_mems], by simp [Emu.read_b_mems], ?_⟩
      intro r hr
      simp at hr
  | cons region rest ih =>
      rcases List.pairwise_cons.mp hdisj with ⟨hhead, hdtail⟩
      obtain ⟨ih1, ih2, ih3⟩ := ih hdtail
      by_cases hc : Emu.containsAddr region a
      · cases hg : region.pool[a - region.base]? with
        | some value =>
            have hread : Emu.read_b_mems (region :: rest) a = .ok value := by
              simp [Emu.read_b_mems, hc, hg]
            have hlt : a - region.base < region.pool.length := by
              by_contra hge
              rw [List.getElem?_eq_none_iff.mpr (by omega)] at hg
              cases hg
            refine ⟨?_, ?_, ?_⟩
            · constructor
              · intro h
                rw [hread] at h
                cases h
              · intro hall
                exact absurd hc (hall region (by simp))
            · constructor
              · intro h
                rw [hread] at h
                cases h
              · rintro ⟨r, hr, hcr, hlen⟩
                rcases List.mem_cons.mp hr with rfl | hr2
                · omega
                · exact absurd ⟨hc, hcr⟩ (hhead r hr2 a)
            · intro r hr hcr value2 hg2
              rcases List.mem_cons.mp hr with rfl | hr2
              · rw [hg] at hg2
                cases hg2
                exact hread
              · exact absurd ⟨hc, hcr⟩ (hhead r hr2 a)
        | none =>
            have hlen : region.pool.length ≤ a - region.base :=
              List.getElem?_eq_none_iff.mp hg
            have hread : Emu.read_b_mems (region :: rest) a
                = .error .MemoryObviouslyUninitializedAccess := by
              simp [Emu.read_b_mems, hc, hg]
            refine ⟨?_, ?_, ?_⟩
            · constructor
              · intro h
                rw [hread] at h
                cases h
              · intro hall
                exact absurd hc (hall region (by simp))
            · constructor
              · intro _
                exact ⟨region, by simp, hc, hlen⟩
              · intro _
                exact hread
            · intro r hr hcr value hg2
              rcases List.mem_cons.mp hr with rfl | hr2
              · rw [hg] at hg2
                cases hg2
              · exact absurd ⟨hc, hcr⟩ (hhead r hr2 a)
      · have hread : Emu.read_b_mems (region :: rest) a
            = Emu.read_b_mems rest a := by
          simp [Emu.read_b_mems, hc]
        refine ⟨?_, ?_, ?_⟩
        · rw [hread, ih1]
          simp [hc]
        · rw [hread, ih2]
          constructor
          · rintro ⟨r, hr, hcr, hlen⟩
            exact ⟨r, List.mem_cons_of_mem _ hr, hcr, hlen⟩
          · rintro ⟨r, hr, hcr, hlen⟩
            rcases List.mem_cons.mp hr with rfl | hr2
            · exact absurd hcr hc
            · exact ⟨r, hr2, hcr, hlen⟩
        · intro r hr hcr value hg2
          rcases List.mem_cons.mp hr with rfl | hr2
          · exact absurd hcr hc
          · rw [hread]
            exact ih3 r hr2 hcr value hg2

/-- C3: for non-overlapping regions, `read_b` fails with
`MemoryUnknownAccess` iff no region's `[base, base+max)` interval contains
the address, fails with the recoverable
`MemoryObviouslyUninitializedAccess` iff some region's interval contains
the address but its backing pool has not grown to that offset, and
otherwise returns the byte stored at that offset — three distinct
outcomes for the three memory states. -/
theorem read_b_three_state (m : Emu.Mips) (a : Nat)
    (hdisj : disjointRegions m.memories) :
    (Emu.read_b m a = .error .MemoryUnknownAccess ↔
      ∀ r ∈ m.memories, ¬ Emu.containsAddr r a) ∧
    (Emu.read_b m a = .error .MemoryObviouslyUninitializedAccess ↔
      ∃ r ∈ m.memories, Emu.containsAddr r a ∧ r.pool.length ≤ a - r.base) ∧
    (∀ r ∈ m.memories, Emu.containsAddr r a →
      ∀ value, r.pool[a - r.base]? = some value →
        Emu.read_b m a = .ok value) :=
  read_b_mems_spec m.memories a hdisj

/-- C3 witness: the three states on a concrete machine — address 50 is
unmapped, 105 is mapped but uninitialized, 100 is initialized. -/
theorem read_b_three_state_witness :
    Emu.read_b memorySample 50 = .error .MemoryUnknownAccess ∧
    Emu.read_b memorySample 105 = .error .MemoryObviouslyUninitializedAccess ∧
    Emu.read_b memorySample 100 = .ok 7 :=
  ⟨(read_b_three_state memorySample 50
      (by simp [disjointRegions, memorySample])).1.mpr (by decide),
   (read_b_three_state memorySample 105
      (by simp [disjointRegions, memorySample])).2.1.mpr
      ⟨⟨[7], 100, 10⟩, by simp [memorySample], by decide, by decide⟩,
   (read_b_three_state memorySample 100
      (by simp [disjointRegions, memorySample])).2.2
      ⟨[7], 100, 10⟩ (by simp [memorySample]) (by decide) 7 (by decide)⟩
